import Mathlib

/-!
Verification of the symbolic differentiator in `AutoGrad.cpp` against its
natural-language specification.  The definitions below are a shallow
embedding of the program: machine `unsigned long long` arithmetic is
modelled as `Nat` taken modulo `2^64`, C++ `int` values are modelled as
`Int`, and the expression tree (`ExprNode`, a token plus two nullable
child pointers) is modelled as an inductive type with `Option` children.
-/

set_option maxHeartbeats 1000000

/-- Modulus of C++ `unsigned long long` (the `ExprHash` type): `2 ^ 64`. -/
def UMOD : Nat := 18446744073709551616

/-- Modulus of a 32-bit word, used when a `Token` is reinterpreted as a
64-bit hash value. -/
def WMOD : Nat := 4294967296

/-- Embedding of `TransformHash` (AutoGrad.cpp line 207): the linear
congruential mix `H * 6364136223846793005 + 7` in `unsigned long long`
arithmetic. -/
def transformHash (H : Nat) : Nat := (H * 6364136223846793005 + 7) % UMOD

/-- Embedding of `struct Token`: a tag (`Ty`: 0 = Int, 1 = Variable,
2 = Function, 3 = Operator, mirroring the C++ enum values) and an `int`
payload `ID` (integer value, variable id, function id, or operator
character code). -/
structure Tok where
  ty : Nat
  id : Int
deriving DecidableEq, Repr

/-- Bit pattern of `Token::Hash`: the struct `(Ty, ID)` of two 32-bit
words reinterpreted as one little-endian 64-bit value, so `Ty` is the low
word and `ID` (two's complement) the high word. -/
def tokenBits (t : Tok) : Nat := t.ty % WMOD + WMOD * (t.id.emod WMOD).toNat

/-- Embedding of `Token::Hash` (line 336): `TransformHash` of the token's
bit pattern. -/
def tokHash (t : Tok) : Nat := transformHash (tokenBits t)

/-- Operator token for the plus character (the global `ADD`, line 1443). -/
def ADDT : Tok := ⟨3, 43⟩

/-- Operator token for the star character (the global `MUL`, line 1447). -/
def MULT : Tok := ⟨3, 42⟩

/-- Operator token for the minus character (the global `SUB`, line 1445). -/
def SUBT : Tok := ⟨3, 45⟩

/-- Operator token for the slash character (the global `DIV`, line 1449). -/
def DIVT : Tok := ⟨3, 47⟩

/-- Operator token for the caret character (the global `POW`, line 1451). -/
def POWT : Tok := ⟨3, 94⟩

/-- Embedding of `struct ExprNode`: a token and two child slots, each of
which may be null.  The parser-time `Prev`/`Next` links are not part of
the tree and are not modelled. -/
inductive ExprN : Type where
  | mk (v : Tok) (l r : Option ExprN) : ExprN

/-- Token stored at a node. -/
def ExprN.tok : ExprN → Tok
  | .mk v _ _ => v

/-- Left child slot (`Operand[0]`). -/
def ExprN.lc : ExprN → Option ExprN
  | .mk _ l _ => l

/-- Right child slot (`Operand[1]`). -/
def ExprN.rc : ExprN → Option ExprN
  | .mk _ _ r => r

/-- Integer-literal leaf `Const(x)`. -/
def intLeaf (x : Int) : ExprN := .mk ⟨0, x⟩ none none

/-- Variable leaf with variable id `x`. -/
def varLeaf (x : Int) : ExprN := .mk ⟨1, x⟩ none none

mutual

/-- Embedding of `ExprNode::Hash` (lines 1712-1731).  For a node whose
token equals `ADD` or `MUL` the hash is the token hash plus the sum of
`TransformHash` of the hashes of the maximal non-`ADD`/non-`MUL`
descendants reached through children with the same token (the
`TraverseTreeNodes` collection); for every other node it is the token
hash plus `TransformHash` of each existing child's hash.  All additions
wrap in `unsigned long long`, i.e. are taken modulo `2 ^ 64`. -/
def hashE : ExprN → Nat
  | .mk v l r =>
    if v = ADDT ∨ v = MULT then
      (tokHash v
        + (match l with | none => 0 | some a => chainN v a)
        + (match r with | none => 0 | some b => chainN v b)) % UMOD
    else
      (tokHash v
        + (match l with | none => 0 | some a => transformHash (hashE a))
        + (match r with | none => 0 | some b => transformHash (hashE b))) % UMOD
termination_by e => 2 * sizeOf e

/-- Embedding of `TraverseTreeNodes_Impl` (lines 1624-1637) combined with
the summation in the `ADD`/`MUL` branch of `ExprNode::Hash`: descend
through nodes whose token equals the required parent token `t` and sum
`TransformHash` of the hash of every other node encountered. -/
def chainN (t : Tok) : ExprN → Nat
  | .mk v l r =>
    if v = t then
      (match l with | none => 0 | some a => chainN t a)
        + (match r with | none => 0 | some b => chainN t b)
    else transformHash (hashE (.mk v l r))
termination_by e => 2 * sizeOf e + 1

end

/-- Embedding of the value part of `Fraction::Simplify` (lines 1504-1519)
applied to the pair `(N, D)` stored by the two-argument constructor
`Fraction(int N, int D)`.  When `D == 0` the function returns early and
leaves the pair unchanged (the flag side effect is modelled by
`mkFracFlag`); when `N == 0` it sets `D = 1`; otherwise it divides both
components by `std::gcd(N, D)` (the gcd of the absolute values).  The
divisions are exact, so the rounding convention of `/` is immaterial. -/
def fracSimplify (N D : Int) : Int × Int :=
  if D = 0 then (N, D)
  else if N = 0 then (N, 1)
  else (N / Int.gcd N D, D / Int.gcd N D)

/-- Value produced by the two-argument constructor `Fraction(N, D)`
(line 1493), which runs `Simplify()` on the stored pair. -/
def mkFrac (N D : Int) : Int × Int := fracSimplify N D

/-- Value produced by the one-argument constructor `Fraction(N)`
(line 1499), which stores `(N, 1)` without simplifying. -/
def intFrac (N : Int) : Int × Int := (N, 1)

/-- Flag side effect of the two-argument constructor: `Fraction::Simplify`
sets the round-wide `DividedbyZero` flag exactly when the stored
denominator is zero, and never clears it. -/
def mkFracFlag (N D : Int) (flag : Bool) : (Int × Int) × Bool :=
  (fracSimplify N D, flag || decide (D = 0))

/-- Embedding of `Fraction::operator+` (line 1522). -/
def fadd (a b : Int × Int) : Int × Int := mkFrac (a.1 * b.2 + b.1 * a.2) (a.2 * b.2)

/-- Embedding of `Fraction::operator-` (line 1526). -/
def fsub (a b : Int × Int) : Int × Int := mkFrac (a.1 * b.2 - b.1 * a.2) (a.2 * b.2)

/-- Embedding of `Fraction::operator*` (line 1530). -/
def fmul (a b : Int × Int) : Int × Int := mkFrac (a.1 * b.1) (a.2 * b.2)

/-- Embedding of `Fraction::operator/` (line 1534). -/
def fdiv (a b : Int × Int) : Int × Int := mkFrac (a.1 * b.2) (a.2 * b.1)

/-- A fraction pair is in reduced form: numerator and denominator are
coprime (in absolute value) and the denominator is nonzero. -/
def FracReduced (p : Int × Int) : Prop := Int.gcd p.1 p.2 = 1 ∧ p.2 ≠ 0

instance (p : Int × Int) : Decidable (FracReduced p) := by
  unfold FracReduced
  infer_instance

/-- Hash of a tree as a 64-bit value, the key type of the local
`std::set<ExprHash> Occurred` in `Simplify`. -/
def hashFin (t : ExprN) : Fin UMOD := ⟨hashE t % UMOD, Nat.mod_lt _ (by norm_num [UMOD])⟩

/-- One iteration of the pass loop in `Simplify` (lines 3704-3719): the
six rewrite passes `Simplify_All01`, `Simplify_Neg`, `Simplify_TopNeg`,
`Simplify_SpecialFuncs`, `Simplify_Polynomial`, `Simplify_FoldConst`
applied in order.  The passes themselves are parameters: the claim is
about the driver, which terminates for arbitrary pass behavior. -/
def simplifyPassBody (p1 p2 p3 p4 p5 p6 : ExprN → ExprN) (t : ExprN) : ExprN :=
  p6 (p5 (p4 (p3 (p2 (p1 t)))))

/-- Embedding of the `do`/`while` loop of `Simplify` (lines 3704-3719):
run the pass body, then insert the hash of the resulting root into the
seen-hash set `Occurred`; stop the first time the insert fails (the hash
is already present), otherwise repeat.  The recursion terminates because
each continuing iteration strictly grows a set of 64-bit values. -/
def simplifyLoop (body : ExprN → ExprN) (seen : Finset (Fin UMOD)) (t : ExprN) : ExprN :=
  if h : hashFin (body t) ∈ seen then body t
  else simplifyLoop body (insert (hashFin (body t)) seen) (body t)
termination_by UMOD - seen.card
decreasing_by
  have hcard : (insert (hashFin (body t)) seen).card = seen.card + 1 :=
    Finset.card_insert_of_not_mem h
  have hle : (insert (hashFin (body t)) seen).card ≤ UMOD := by
    have hu := Finset.card_le_univ (insert (hashFin (body t)) seen)
    rwa [Fintype.card_fin] at hu
  omega

/-- Embedding of `Simplify` (lines 3700-3724): the pass loop started with
an empty seen-hash set, followed by the finalization phase `FinalFold`
(abstracted as the parameter `ff`). -/
def SimplifyModel (p1 p2 p3 p4 p5 p6 ff : ExprN → ExprN) (t : ExprN) : ExprN :=
  ff (simplifyLoop (simplifyPassBody p1 p2 p3 p4 p5 p6) (∅ : Finset (Fin UMOD)) t)

/-- Embedding of the `Operators` array (line 454): the characters
recognized as operator or bracket symbols. -/
def OperatorsList : List Char := ['+', '-', '*', '/', '^', ',', '(', ')']

/-- Embedding of `IsOpr` (line 464). -/
def IsOprC (c : Char) : Bool := OperatorsList.contains c

/-- Embedding of `enum class TokCond` (line 827): the character class
used by the lexer. -/
inductive TokCond : Type where
  | nul : TokCond
  | operator : TokCond
  | symbol : TokCond
  | number : TokCond
deriving DecidableEq, Repr

/-- Embedding of `Judge` (line 840): classify one input character;
characters that are not digits, letters or operator symbols are ignored
(class `Null`). -/
def judge (c : Char) : TokCond :=
  if c.isDigit then .number
  else if c.isAlpha then .symbol
  else if IsOprC c then .operator
  else .nul

/-- Embedding of `StrToIntEx` (line 982): decimal value of a digit run
(the C++ accumulator is an `int`; no input in the claims overflows it,
so it is modelled as an unbounded integer). -/
def strToIntEx (run : List Char) : Int :=
  run.foldl (fun v c => v * 10 + ((c.toNat : Int) - 48)) 0

/-- Names of the built-in function table `Funcs` (lines 421-442), in
table order. -/
def FuncNames : List String := ["ln", "log", "cos", "sin", "tan", "pow", "exp", "sinh", "cosh"]

/-- Declared parameter counts of the built-in function table, in table
order (`log` and `pow` are binary, the rest unary). -/
def nParamOf (fid : Int) : Nat := [1, 2, 1, 1, 1, 2, 1, 1, 1].getD fid.toNat 0

/-- Position of a string in a list: index of the first match, `-1` when
absent (the return convention of `GetFuncID`, line 999). -/
def findIdx1 : List String → String → Int
  | [], _ => -1
  | x :: xs, s =>
    if x = s then 0
    else
      let r := findIdx1 xs s
      if r = -1 then -1 else r + 1

/-- Embedding of `GetFuncID` (line 999). -/
def getFuncID (s : String) : Int := findIdx1 FuncNames s

/-- First index of a name in the interned-variable list, if present. -/
def varIdxOf : List String → String → Option Nat
  | [], _ => none
  | x :: xs, s =>
    if x = s then some 0
    else (varIdxOf xs s).map (· + 1)

/-- Embedding of `GetVarID` (lines 1014-1024) acting on the
interned-variable list `Vars`: `VarMap` always maps a name to its
position in `Vars` (ids are handed out as `VarMaxID = Vars.size()` and
the name is pushed), so a lookup is a position lookup and a miss appends
the name and returns the old length. -/
def getVarID (s : String) (vars : List String) : Nat × List String :=
  match varIdxOf vars s with
  | some i => (i, vars)
  | none => (vars.length, vars ++ [s])

/-- Embedding of `ParseToken` (lines 856-879): turn one character run of
a given class into at most one token, interning new variable names. -/
def parseTokenM (ty : TokCond) (run : List Char) (vars : List String) :
    List Tok × List String :=
  match ty with
  | .nul => ([], vars)
  | .operator => ([⟨3, ((run.headD ' ').toNat : Int)⟩], vars)
  | .number => ([⟨0, strToIntEx run⟩], vars)
  | .symbol =>
    let s := String.mk run
    let fid := getFuncID s
    if fid = -1 then
      let p := getVarID s vars
      ([⟨1, (p.1 : Int)⟩], p.2)
    else ([⟨2, fid⟩], vars)

/-- Embedding of the scanning loop of `GenerateTokens` (lines 887-915):
accumulate a run of characters of one class; when the class changes,
parse the finished run; inside an operator run each character is emitted
immediately as its own token.  The arguments are the remaining input,
the class of the current run (`LastType`), the characters of the current
run (`[Begin, Idx)`), and the interned-variable list. -/
def genTok : List Char → TokCond → List Char → List String → List Tok × List String
  | [], lastTy, run, vars => parseTokenM lastTy run vars
  | c :: cs, lastTy, run, vars =>
    if lastTy = judge c then
      if lastTy = .operator then
        let p := genTok cs lastTy [c] vars
        (⟨3, ((run.headD ' ').toNat : Int)⟩ :: p.1, p.2)
      else genTok cs lastTy (run ++ [c]) vars
    else
      let p := parseTokenM lastTy run vars
      let q := genTok cs (judge c) [c] p.2
      (p.1 ++ q.1, q.2)

/-- Embedding of `GenerateTokens` called on a fresh round: scan the whole
line starting with an empty `Null` run and no interned variables;
returns the token list and the interned-variable list `Vars` in order of
first occurrence. -/
def tokenize (s : List Char) : List Tok × List String := genTok s .nul [] []

/-- Precedence table inside `ExprNode::OprLevel` (lines 1776-1787):
plus and minus are level 1, star and slash level 2, caret level 3. -/
def oprLevel (id : Int) : Nat :=
  if id = 43 ∨ id = 45 then 1
  else if id = 42 ∨ id = 47 then 2
  else if id = 94 then 3
  else 114514

/-- Embedding of `ExprNode::OprLevel(false)` (lines 1776-1787): an
operator node that already has a left child counts as an operand
(level 0); tokens that are not operators are operands. -/
def levelOf (e : ExprN) : Nat :=
  if e.tok.ty = 3 then
    match e.lc with
    | some _ => 0
    | none => oprLevel e.tok.id
  else 0

/-- Embedding of `Token::IsSUB` (line 321) on a node. -/
def isSUBe (e : ExprN) : Bool := decide (e.tok = SUBT)

/-- Embedding of `Token::IsIgnoredSymbol` (line 320): bracket or comma. -/
def isIgnoredTok (t : Tok) : Bool :=
  decide (t.ty = 3 ∧ (t.id = 40 ∨ t.id = 41 ∨ t.id = 44))

/-- Embedding of `TriggerMerge` (lines 1038-1044): when the operator on
top of the stack is minus or slash, merge on top precedence greater than
or equal to the incoming precedence; otherwise merge only on strictly
greater precedence. -/
def triggerMergeM (back : ExprN) (curLevel : Nat) : Bool :=
  if back.tok.ty = 3 ∧ (back.tok.id = 45 ∨ back.tok.id = 47) then
    decide (curLevel ≤ levelOf back)
  else decide (curLevel < levelOf back)

/-- Embedding of `MergeTop` (lines 1051-1065): while the top of the
operator stack triggers, pop it, attach the top two operands as its
right and left children, and push the merged node back as an operand;
fail (syntax error: missing operand) when fewer than two operands are
available.  Stacks are lists with the top at the head. -/
def mergeTopM (curLevel : Nat) : List ExprN → List ExprN → Option (List ExprN × List ExprN)
  | exprV, [] => some (exprV, [])
  | exprV, op :: ops =>
    if triggerMergeM op curLevel then
      match exprV with
      | e1 :: e2 :: rest => mergeTopM curLevel (ExprN.mk op.tok (some e2) (some e1) :: rest) ops
      | _ => none
    else some (exprV, op :: ops)

/-- Embedding of the scanning loop of `CreateTree` (lines 1091-1135):
walk the token range keeping an operand stack and an operator stack;
brackets and commas are skipped; an operand following an operand inserts
an implicit star operator (after merging at level 2); an operator first
merges at its own level; at the end everything is merged at level 0 and
the bottom of the operand stack (`ExprV[0]`) is the root. -/
def createTreeGo : List ExprN → List ExprN → List ExprN → Bool → Option ExprN
  | [], exprV, oprV, _ =>
    match mergeTopM 0 exprV oprV with
    | none => none
    | some (ev, _) => ev.getLast?
  | item :: rest, exprV, oprV, lastHasLevel =>
    if isIgnoredTok item.tok then createTreeGo rest exprV oprV lastHasLevel
    else if levelOf item = 0 then
      if lastHasLevel then createTreeGo rest (item :: exprV) oprV false
      else
        match mergeTopM 2 exprV oprV with
        | none => none
        | some (ev, ov) => createTreeGo rest (item :: ev) (ExprN.mk MULT none none :: ov) false
    else
      match mergeTopM (levelOf item) exprV oprV with
      | none => none
      | some (ev, ov) => createTreeGo rest ev (item :: ov) true

/-- Embedding of `CreateTree` (lines 1073-1136) on a flat range of
items: an empty range yields a fresh default node (`CreateNode()`, whose
default token is integer 0); a leading minus operator gets a zero
operand prepended (unary minus becomes binary subtraction); then the
shunting-yard loop runs. -/
def createTreeM (items : List ExprN) : Option ExprN :=
  match items with
  | [] => some (ExprN.mk ⟨0, 0⟩ none none)
  | first :: _ =>
    let items2 := if levelOf first ≠ 0 ∧ isSUBe first = true then intLeaf 0 :: items else items
    createTreeGo items2 [] [] true

/-- One open bracket recorded by the parser (`BracketPtr`, line 674):
the items already collected before the bracket, and, once a comma was
seen inside it, the items of the first argument. -/
structure PFrame where
  outer : List ExprN
  pre : Option (List ExprN)

/-- Embedding of the bracket/comma pass of the `Expr` constructor
(lines 1175-1265) operating on the token list.  Item lists are kept
reversed (most recent first).  On an opening bracket a frame is pushed;
on a comma the current items are stashed in the innermost frame (one
comma per bracket, comma outside brackets is a syntax error); on a
closing bracket the interior(s) are built with `CreateTree` and either
attached as the operand(s) of the token before the bracket when it is a
function token (a comma requires this), or spliced back as a single
operand.  Unmatched brackets are syntax errors.  At the end the
remaining flat item list is built with `CreateTree`. -/
def parseP1 : List Tok → List ExprN → List PFrame → Option ExprN
  | [], cur, [] => createTreeM cur.reverse
  | [], _, _ :: _ => none
  | t :: ts, cur, frames =>
    if t.ty = 3 ∧ t.id = 40 then parseP1 ts [] (⟨cur, none⟩ :: frames)
    else if t.ty = 3 ∧ t.id = 44 then
      match frames with
      | [] => none
      | f :: fs =>
        match f.pre with
        | some _ => none
        | none => parseP1 ts [] (⟨f.outer, some cur⟩ :: fs)
    else if t.ty = 3 ∧ t.id = 41 then
      match frames with
      | [] => none
      | f :: fs =>
        match f.pre with
        | some preItems =>
          match createTreeM preItems.reverse, createTreeM cur.reverse with
          | some t1, some t2 =>
            match f.outer with
            | fn :: rest =>
              if fn.tok.ty = 2 then parseP1 ts (ExprN.mk fn.tok (some t1) (some t2) :: rest) fs
              else none
            | [] => none
          | _, _ => none
        | none =>
          match createTreeM cur.reverse with
          | some t1 =>
            match f.outer with
            | fn :: rest =>
              if fn.tok.ty = 2 then parseP1 ts (ExprN.mk fn.tok (some t1) fn.rc :: rest) fs
              else parseP1 ts (t1 :: fn :: rest) fs
            | [] => parseP1 ts [t1] fs
          | none => none
    else parseP1 ts (ExprN.mk t none none :: cur) frames

/-- Embedding of `CheckArgument` (lines 1143-1164): a function node must
carry exactly its declared number of operands; note that the source does
not recurse into the children of a function node that passes the check. -/
def checkArgE : ExprN → Bool
  | .mk v l r =>
    if v.ty = 2 then
      decide (((match l with | some _ => 1 | none => 0)
        + (match r with | some _ => 1 | none => 0) : Nat) = nParamOf v.id)
    else
      (match l with | none => true | some a => checkArgE a)
        && (match r with | none => true | some b => checkArgE b)

/-- Embedding of the parsing part of the `Expr` constructor
(lines 1175-1272): the bracket/comma pass plus `CheckArgument`; `none`
models `FailedToParse` (a syntax-error diagnostic was printed and the
round aborts).  The final `Simplify` call of the constructor is not part
of this model. -/
def parseExprTokens (toks : List Tok) : Option ExprN :=
  match parseP1 toks [] [] with
  | none => none
  | some root => if checkArgE root then some root else none

/-- Function token for `ln` (table index 0). -/
def lnTok : Tok := ⟨2, 0⟩

/-- Function token for `log` (table index 1). -/
def logTok : Tok := ⟨2, 1⟩

/-- Function token for `cos` (table index 2). -/
def cosTok : Tok := ⟨2, 2⟩

/-- Function token for `sin` (table index 3). -/
def sinTok : Tok := ⟨2, 3⟩

/-- Function token for `tan` (table index 4). -/
def tanTok : Tok := ⟨2, 4⟩

/-- Function token for `pow` (table index 5). -/
def powTok : Tok := ⟨2, 5⟩

/-- Function token for `exp` (table index 6). -/
def expTok : Tok := ⟨2, 6⟩

/-- Function token for `sinh` (table index 7). -/
def sinhTok : Tok := ⟨2, 7⟩

/-- Function token for `cosh` (table index 8). -/
def coshTok : Tok := ⟨2, 8⟩

/-- Node builder mirroring the `Add` helper macro. -/
def nAdd (a b : ExprN) : ExprN := .mk ADDT (some a) (some b)

/-- Node builder mirroring the `Sub` helper macro. -/
def nSub (a b : ExprN) : ExprN := .mk SUBT (some a) (some b)

/-- Node builder mirroring the `Mul` helper macro. -/
def nMul (a b : ExprN) : ExprN := .mk MULT (some a) (some b)

/-- Node builder mirroring the `Div` helper macro. -/
def nDiv (a b : ExprN) : ExprN := .mk DIVT (some a) (some b)

/-- Node builder mirroring the `Pwr` helper macro. -/
def nPow (a b : ExprN) : ExprN := .mk POWT (some a) (some b)

/-- Node builder mirroring the `Ln` function helper. -/
def nLn (a : ExprN) : ExprN := .mk lnTok (some a) none

/-- Node builder mirroring the `Cos` function helper. -/
def nCos (a : ExprN) : ExprN := .mk cosTok (some a) none

/-- Node builder mirroring the `Sin` function helper. -/
def nSin (a : ExprN) : ExprN := .mk sinTok (some a) none

/-- Node builder mirroring the `Exp` function helper. -/
def nExp (a : ExprN) : ExprN := .mk expTok (some a) none

/-- Node builder mirroring the `Sinh` function helper. -/
def nSinh (a : ExprN) : ExprN := .mk sinhTok (some a) none

/-- Node builder mirroring the `Cosh` function helper. -/
def nCosh (a : ExprN) : ExprN := .mk coshTok (some a) none

/-- Termination weight of one token for the differentiation recursion:
the caret operator and the binary functions `pow` and `log` weigh 3
(their derivative rules recurse on freshly built, slightly larger
trees), every other token weighs 1. -/
def powWeighted (v : Tok) : Nat :=
  if (v.ty = 3 ∧ v.id = 94) ∨ (v.ty = 2 ∧ (v.id = 5 ∨ v.id = 1)) then 3 else 1

mutual

/-- Weighted size of a tree, the termination measure of `partialD`. -/
def pw : ExprN → Nat
  | .mk v l r => powWeighted v + pwo l + pwo r

/-- Weighted size of an optional child (a null child weighs 0). -/
def pwo : Option ExprN → Nat
  | none => 0
  | some a => pw a

end

/-- Embedding of `ExprNode::Partial` and `ExprNode::PartialOpr`
(lines 1899-1940) together with the derivative rules `DX_*`
(lines 1960-2120), dispatching exactly as the source does: integer
leaves give 0; a variable gives 1 or 0 depending on the target id;
operators use the sum, difference, product, quotient rules, with the
caret routed through `DX_pow`, i.e. through `exp(g·ln f)`; function
nodes use the `Funcs` table rules (`pow` again via `exp(g·ln f)`, `log`
via `ln(arg)/ln(base)` and the quotient rule).  `Duplicate()` is the
identity on values.  Branches marked unreachable correspond to null
pointer dereferences in the C++ for trees that the parser never builds
(operator or function nodes lacking their operands). -/
def partialD (e : ExprN) (dx : Int) : ExprN :=
  match e with
  | .mk v l r =>
    if v.ty = 0 then intLeaf 0
    else if v.ty = 1 then (if v.id = dx then intLeaf 1 else intLeaf 0)
    else if v.ty = 3 then
      match l, r with
      | some a, some b =>
        if v.id = 43 then nAdd (partialD a dx) (partialD b dx)
        else if v.id = 45 then nSub (partialD a dx) (partialD b dx)
        else if v.id = 42 then nAdd (nMul (partialD a dx) b) (nMul a (partialD b dx))
        else if v.id = 47 then
          nDiv (nSub (nMul (partialD a dx) b) (nMul a (partialD b dx)))
            (nPow b (intLeaf 2))
        else if v.id = 94 then
          nMul (partialD (nMul b (nLn a)) dx) (nExp (nMul b (nLn a)))
        else .mk v l r
      | _, _ => .mk v l r
    else if v.ty = 2 then
      match l with
      | some a =>
        if v.id = 0 then nDiv (partialD a dx) a
        else if v.id = 1 then
          match r with
          | some b =>
            nDiv
              (nSub (nMul (partialD (nLn b) dx) (nLn a))
                (nMul (nLn b) (partialD (nLn a) dx)))
              (nPow (nLn a) (intLeaf 2))
          | none => intLeaf 0
        else if v.id = 2 then nSub (intLeaf 0) (nMul (partialD a dx) (nSin a))
        else if v.id = 3 then nMul (partialD a dx) (nCos a)
        else if v.id = 4 then nDiv (partialD a dx) (nPow (nCos a) (intLeaf 2))
        else if v.id = 5 then
          match r with
          | some b => nMul (partialD (nMul b (nLn a)) dx) (nExp (nMul b (nLn a)))
          | none => intLeaf 0
        else if v.id = 6 then nMul (partialD a dx) (nExp a)
        else if v.id = 7 then nMul (partialD a dx) (nCosh a)
        else if v.id = 8 then nMul (partialD a dx) (nSinh a)
        else intLeaf 0
      | none => intLeaf 0
    else intLeaf 0
termination_by pw e
decreasing_by
  all_goals
    have hmk : ∀ (w : Tok) (lo ro : Option ExprN),
        pw (.mk w lo ro) = powWeighted w + pwo lo + pwo ro := fun w lo ro => by rw [pw]
    simp only [hmk, nMul, nLn, pwo, powWeighted, MULT, lnTok, *]
    try norm_num
    try omega

/-- One divided-by-zero checkpoint reached while computing and
simplifying a derivative: either a two-argument `Fraction` construction
(its `Simplify` checks `D == 0`, lines 1504-1519) or the `Tg == 0` test
in `FinalFold_GCDPoly` (lines 3661-3667).  The surrounding numeric work
of the derivation is abstracted into the sequence of these events. -/
inductive DivEvent : Type where
  | frac (n d : Int) : DivEvent
  | gcdCheck (tgZero : Bool) : DivEvent

/-- Whether a checkpoint detects a divided-by-zero: a fraction
construction raises exactly when its denominator is zero, the GCD
checkpoint raises exactly when the extracted GCD is the zero fraction. -/
def eventRaises : DivEvent → Bool
  | .frac _ d => decide (d = 0)
  | .gcdCheck z => z

/-- The diagnostic line printed by both checkpoints. -/
def errLine : String := "Runtime Error: Divided by 0"

/-- Embedding of the flag protocol shared by both checkpoints
(`if(!DividedbyZero)puts("Runtime Error: Divided by 0"); DividedbyZero
= true;`): given the current flag, process the events in order,
printing the message only when the flag is not yet set and then setting
it.  Returns the final flag and the printed lines. -/
def runDerivAux : Bool → List DivEvent → Bool × List String
  | flag, [] => (flag, [])
  | flag, e :: es =>
    if eventRaises e then
      let rest := runDerivAux true es
      (rest.1, (if flag then [] else [errLine]) ++ rest.2)
    else runDerivAux flag es

/-- One derivation (`Expr::Expr(F, DX)`, lines 1292-1297): the
constructor clears `DividedbyZero` before differentiating and
simplifying, so its checkpoints start from a clear flag. -/
def runDeriv (es : List DivEvent) : Bool × List String := runDerivAux false es

/-- Byte-lexicographic comparison of character lists, the order of
`std::string::operator<` (`std::map`'s default key comparison); all
names here are ASCII, so comparing code points equals comparing bytes. -/
def strLtB : List Char → List Char → Bool
  | [], [] => false
  | [], _ :: _ => true
  | _ :: _, [] => false
  | a :: as, b :: bs =>
    if a.toNat < b.toNat then true
    else if b.toNat < a.toNat then false
    else strLtB as bs

/-- Byte-lexicographic order on strings (`std::string::operator<`). -/
def strLt (a b : String) : Bool := strLtB a.toList b.toList

/-- Insertion into `std::map<std::string, int>` modelled on a list of
pairs kept sorted by key in ascending byte-lexicographic order (the
iteration order of the map); an existing key is left unchanged, as
`map::insert` does. -/
def mapInsert (k : String) (v : Nat) : List (String × Nat) → List (String × Nat)
  | [] => [(k, v)]
  | p :: rest =>
    if strLt k p.1 = true then (k, v) :: p :: rest
    else if k = p.1 then p :: rest
    else p :: mapInsert k v rest

/-- Embedding of the `VarMap` population by `GetVarID`
(lines 1014-1024): walking the first-occurrence variable list `Vars`,
the name at position `i` is inserted with id `i` (ids are handed out as
`VarMaxID`, which equals the number of interned names). -/
def buildVarMapAux (i : Nat) : List String → List (String × Nat) → List (String × Nat)
  | [], m => m
  | s :: rest, m => buildVarMapAux (i + 1) rest (mapInsert s i m)

/-- The `VarMap` contents at the end of tokenization, given the interned
variable list in first-occurrence order. -/
def buildVarMap (vars : List String) : List (String × Nat) := buildVarMapAux 0 vars []

/-- Embedding of the derivative loop of `main` (lines 3764-3772): for
each `(Name, ID)` pair in `VarMap` iteration order, construct the
derivative (`runDeriv` of that derivation's checkpoints, which prints
any divided-by-zero diagnostic), then skip the output line when the flag
is set and otherwise print `Name: ` followed by the rendered tree.
`render` abstracts printing of the simplified derivative tree. -/
def roundDerivOut (evs : Nat → List DivEvent) (render : Nat → String) :
    List (String × Nat) → List String
  | [] => []
  | (name, id) :: rest =>
    let d := runDeriv (evs id)
    d.2 ++ (if d.1 then [] else [name ++ ": " ++ render id])
      ++ roundDerivOut evs render rest

/-- Derivative output lines of one round, starting from the interned
variable list: `main` iterates `VarMap`, i.e. the name-sorted map built
from the list. -/
def mainLines (evs : Nat → List DivEvent) (render : Nat → String)
    (vars : List String) : List String :=
  roundDerivOut evs render (buildVarMap vars)

/-- Helper: one-step unfolding of `hashE` at a constructor. -/
theorem hashE_mk (v : Tok) (l r : Option ExprN) :
    hashE (.mk v l r) =
      if v = ADDT ∨ v = MULT then
        (tokHash v
          + (match l with | none => 0 | some a => chainN v a)
          + (match r with | none => 0 | some b => chainN v b)) % UMOD
      else
        (tokHash v
          + (match l with | none => 0 | some a => transformHash (hashE a))
          + (match r with | none => 0 | some b => transformHash (hashE b))) % UMOD := by
  rw [hashE.eq_def]

/-- Helper: one-step unfolding of `chainN` at a constructor. -/
theorem chainN_mk (t v : Tok) (l r : Option ExprN) :
    chainN t (.mk v l r) =
      if v = t then
        (match l with | none => 0 | some a => chainN t a)
          + (match r with | none => 0 | some b => chainN t b)
      else transformHash (hashE (.mk v l r)) := by
  rw [chainN.eq_def]

/-- Helper: unfolding of `hashE` at a node with two present children. -/
theorem hashE_mk2 (v : Tok) (a b : ExprN) :
    hashE (.mk v (some a) (some b)) =
      if v = ADDT ∨ v = MULT then
        (tokHash v + chainN v a + chainN v b) % UMOD
      else
        (tokHash v + transformHash (hashE a) + transformHash (hashE b)) % UMOD := by
  rw [hashE_mk]

/-- Helper: the hash value is always a 64-bit quantity. -/
theorem hashE_lt (e : ExprN) : hashE e < UMOD := by
  cases e with
  | mk v l r =>
    rw [hashE_mk]
    split <;> exact Nat.mod_lt _ (by norm_num [UMOD])

/-- Helper: `ExprNode::Hash` treats the two child slots of any node
symmetrically, because the transformed child hashes are combined with
commutative addition in both branches of the function. -/
theorem hashE_swap (v : Tok) (a b : ExprN) :
    hashE (.mk v (some a) (some b)) = hashE (.mk v (some b) (some a)) := by
  rw [hashE_mk2, hashE_mk2]
  by_cases h : v = ADDT ∨ v = MULT
  · simp only [if_pos h]
    have e1 : tokHash v + chainN v a + chainN v b
        = tokHash v + chainN v b + chainN v a := by omega
    rw [e1]
  · simp only [if_neg h]
    have e2 : tokHash v + transformHash (hashE a) + transformHash (hashE b)
        = tokHash v + transformHash (hashE b) + transformHash (hashE a) := by omega
    rw [e2]

/-- C2: for all expression trees `a` and `b`, the structural hash is
commutative under the plus operator and under the star operator:
`hash(a+b) = hash(b+a)` and `hash(a*b) = hash(b*a)`. -/
theorem c2_hash_comm_add_mul (a b : ExprN) :
    hashE (.mk ADDT (some a) (some b)) = hashE (.mk ADDT (some b) (some a))
    ∧ hashE (.mk MULT (some a) (some b)) = hashE (.mk MULT (some b) (some a)) :=
  ⟨hashE_swap ADDT a b, hashE_swap MULT a b⟩

/-- C3: evaluation of the code at the failing input.  The claim states
that the hash of an operator other than plus and star is
position-sensitive, e.g. `hash(a-b) ≠ hash(b-a)` for structurally
different `a`, `b`.  In the code the non-commutative branch computes
`V.Hash() + TransformHash(L.Hash()) + TransformHash(R.Hash())`, which is
symmetric in the children, so for the distinct variables `x` (id 0) and
`y` (id 1) the trees `x - y` and `y - x` receive the same hash even
though they are structurally different. -/
theorem c3_hash_sub_swap_equal_at_vars :
    hashE (.mk SUBT (some (varLeaf 0)) (some (varLeaf 1)))
      = hashE (.mk SUBT (some (varLeaf 1)) (some (varLeaf 0)))
    ∧ ExprN.mk SUBT (some (varLeaf 0)) (some (varLeaf 1))
        ≠ ExprN.mk SUBT (some (varLeaf 1)) (some (varLeaf 0)) :=
  ⟨hashE_swap SUBT (varLeaf 0) (varLeaf 1), by simp [varLeaf]⟩

/-- Helper: `Fraction::Simplify` on a nonzero denominator produces a
reduced pair with a nonzero denominator. -/
theorem fracSimplify_reduced (n d : Int) (h : d ≠ 0) :
    FracReduced (fracSimplify n d) := by
  unfold fracSimplify
  rw [if_neg h]
  by_cases hn : n = 0
  · rw [if_pos hn]
    exact ⟨by simp, by norm_num⟩
  · rw [if_neg hn]
    have hpos : 0 < Int.gcd n d := Int.gcd_pos_of_ne_zero_right n h
    refine ⟨Int.gcd_div_gcd_div_gcd hpos, ?_⟩
    show d / (Int.gcd n d : Int) ≠ 0
    intro h0
    have hdvd : (Int.gcd n d : Int) ∣ d := Int.gcd_dvd_right
    have := Int.ediv_mul_cancel hdvd
    rw [h0, zero_mul] at this
    exact h this.symm

/-- C6 counterexample: the claim states every `Fraction` produced by
construction or arithmetic has a positive denominator.  Dividing the
fraction `1/1` by the fraction `-2/1` (both built by the one-argument
constructor, as `ExtractConst` does for integer nodes) goes through the
two-argument constructor with denominator `-2`; `Fraction::Simplify`
never normalizes the sign, so the stored pair is `(1, -2)` with a
negative denominator, and the divided-by-zero flag stays clear. -/
theorem c6_negative_denominator_counterexample :
    fdiv (intFrac 1) (intFrac (-2)) = (1, -2)
    ∧ ¬ 0 < (fdiv (intFrac 1) (intFrac (-2))).2
    ∧ (mkFracFlag ((intFrac 1).1 * (intFrac (-2)).2)
        ((intFrac 1).2 * (intFrac (-2)).1) false).2 = false := by
  refine ⟨?_, by decide, by decide⟩
  decide

/-- C6 amended: every `Fraction` value produced by the two-argument
constructor or by the arithmetic operators whose stored denominator is
nonzero is in reduced form with a nonzero (but not necessarily positive)
denominator; constructing with denominator `0` sets the round-wide
divided-by-zero flag, and a nonzero denominator leaves it clear. -/
theorem c6_fraction_reduced_amended (n d : Int) (h : d ≠ 0) :
    FracReduced (mkFrac n d)
    ∧ (∀ a b : Int × Int,
        (a.2 * b.2 ≠ 0 →
          FracReduced (fadd a b) ∧ FracReduced (fsub a b) ∧ FracReduced (fmul a b))
        ∧ (a.2 * b.1 ≠ 0 → FracReduced (fdiv a b)))
    ∧ (∀ m : Int, (mkFracFlag m 0 false).2 = true)
    ∧ (mkFracFlag n d false).2 = false := by
  refine ⟨fracSimplify_reduced n d h, ?_, ?_, ?_⟩
  · intro a b
    exact ⟨fun hz => ⟨fracSimplify_reduced _ _ hz, fracSimplify_reduced _ _ hz,
      fracSimplify_reduced _ _ hz⟩, fun hz => fracSimplify_reduced _ _ hz⟩
  · intro m
    simp [mkFracFlag]
  · simp [mkFracFlag, h]

/-- C6 witness: the amended theorem applied at the concrete construction
`Fraction(6, 4)`, which reduces to `(3, 2)`, and at a denominator-zero
construction, which sets the flag. -/
theorem c6_fraction_reduced_amended_witness :
    FracReduced (mkFrac 6 4) ∧ (mkFracFlag 3 0 false).2 = true :=
  ⟨(c6_fraction_reduced_amended 6 4 (by norm_num)).1,
    (c6_fraction_reduced_amended 6 4 (by norm_num)).2.2.1 3⟩

/-- Helper: one-step unfolding of `simplifyLoop`. -/
theorem simplifyLoop_eq (body : ExprN → ExprN) (seen : Finset (Fin UMOD)) (t : ExprN) :
    simplifyLoop body seen t =
      if hashFin (body t) ∈ seen then body t
      else simplifyLoop body (insert (hashFin (body t)) seen) (body t) := by
  rw [simplifyLoop.eq_def]
  split
  · rfl
  · rfl

/-- Helper: the seen-hash loop always returns after finitely many
iterations, and its result is an iterate of the pass body. -/
theorem simplifyLoop_iterate (body : ExprN → ExprN) (seen : Finset (Fin UMOD)) (t : ExprN) :
    ∃ n, 1 ≤ n ∧ simplifyLoop body seen t = body^[n] t := by
  have main : ∀ k (seen : Finset (Fin UMOD)) (t : ExprN), UMOD - seen.card ≤ k →
      ∃ n, 1 ≤ n ∧ simplifyLoop body seen t = body^[n] t := by
    intro k
    induction k with
    | zero =>
      intro seen t hk
      have hcard : seen.card = UMOD := by
        have hle := Finset.card_le_univ seen
        rw [Fintype.card_fin] at hle
        omega
      have huniv : seen = Finset.univ :=
        Finset.eq_univ_of_card seen (by rw [hcard, Fintype.card_fin])
      have hmem : hashFin (body t) ∈ seen := by
        rw [huniv]
        exact Finset.mem_univ _
      rw [simplifyLoop_eq, if_pos hmem]
      exact ⟨1, le_refl 1, (Function.iterate_one body).symm ▸ rfl⟩
    | succ k ih =>
      intro seen t hk
      rw [simplifyLoop_eq]
      by_cases hmem : hashFin (body t) ∈ seen
      · rw [if_pos hmem]
        exact ⟨1, le_refl 1, (Function.iterate_one body).symm ▸ rfl⟩
      · rw [if_neg hmem]
        obtain ⟨n, hn1, hrec⟩ := ih (insert (hashFin (body t)) seen) (body t) (by
          rw [Finset.card_insert_of_not_mem hmem]
          omega)
        refine ⟨n + 1, by omega, ?_⟩
        rw [hrec, Function.iterate_succ_apply]
  exact main (UMOD - seen.card) seen t (le_refl _)

/-- C1: for every expression tree the fixed-point driver of `Simplify`
terminates: whatever the six rewrite passes and the finalization phase
do, the seen-hash loop stops after finitely many iterations (each
iteration that continues inserts a new 64-bit root hash into the seen
set), so `Simplify` returns, and its result is the finalization of some
finite iterate of the pass sequence. -/
theorem c1_simplify_driver_terminates
    (p1 p2 p3 p4 p5 p6 ff : ExprN → ExprN) (t : ExprN) :
    ∃ n, 1 ≤ n ∧
      SimplifyModel p1 p2 p3 p4 p5 p6 ff t
        = ff ((simplifyPassBody p1 p2 p3 p4 p5 p6)^[n] t) := by
  obtain ⟨n, hn1, heq⟩ :=
    simplifyLoop_iterate (simplifyPassBody p1 p2 p3 p4 p5 p6) (∅ : Finset (Fin UMOD)) t
  exact ⟨n, hn1, by rw [SimplifyModel, heq]⟩

/-- C7 counterexample: the claim states that an incoming operator of
equal precedence always triggers merging (pop on greater-or-equal), so
that `a+b+c` builds `(a+b)+c`.  In `TriggerMerge` the greater-or-equal
comparison is used only when the operator on top of the stack is minus
or slash; for a plus on top of the stack an incoming plus (equal
precedence) does not trigger, so `a+b+c` parses to the right-nested
tree `a+(b+c)`, not to `(a+b)+c`. -/
theorem c7_plus_right_assoc_counterexample :
    parseExprTokens (tokenize ['a', '+', 'b', '+', 'c']).1
      = some (.mk ADDT (some (varLeaf 0))
          (some (.mk ADDT (some (varLeaf 1)) (some (varLeaf 2)))))
    ∧ parseExprTokens (tokenize ['a', '+', 'b', '+', 'c']).1
        ≠ some (.mk ADDT (some (.mk ADDT (some (varLeaf 0)) (some (varLeaf 1))))
            (some (varLeaf 2)))
    ∧ triggerMergeM (ExprN.mk ADDT none none) 1 = false := by
  have hEval : parseExprTokens (tokenize ['a', '+', 'b', '+', 'c']).1
      = some (.mk ADDT (some (varLeaf 0))
          (some (.mk ADDT (some (varLeaf 1)) (some (varLeaf 2))))) := rfl
  refine ⟨hEval, ?_, rfl⟩
  rw [hEval]
  simp [varLeaf, ADDT]

/-- C7 amended: during expression-tree construction only minus and slash
merge at equal precedence (the stack is popped when the top operator is
minus or slash and its precedence is greater than or equal to the
incoming one), so `a-b-c` and `a/b/c` build left-associative trees;
plus, star and caret merge only on strictly greater precedence, so
`a+b+c`, `a*b*c` and `a^b^c` build right-nested trees such as
`a+(b+c)`. -/
theorem c7_associativity_amended (i j k : Int) :
    createTreeM [varLeaf i, .mk ADDT none none, varLeaf j, .mk ADDT none none, varLeaf k]
      = some (.mk ADDT (some (varLeaf i))
          (some (.mk ADDT (some (varLeaf j)) (some (varLeaf k)))))
    ∧ createTreeM [varLeaf i, .mk MULT none none, varLeaf j, .mk MULT none none, varLeaf k]
      = some (.mk MULT (some (varLeaf i))
          (some (.mk MULT (some (varLeaf j)) (some (varLeaf k)))))
    ∧ createTreeM [varLeaf i, .mk POWT none none, varLeaf j, .mk POWT none none, varLeaf k]
      = some (.mk POWT (some (varLeaf i))
          (some (.mk POWT (some (varLeaf j)) (some (varLeaf k)))))
    ∧ createTreeM [varLeaf i, .mk SUBT none none, varLeaf j, .mk SUBT none none, varLeaf k]
      = some (.mk SUBT (some (.mk SUBT (some (varLeaf i)) (some (varLeaf j))))
          (some (varLeaf k)))
    ∧ createTreeM [varLeaf i, .mk DIVT none none, varLeaf j, .mk DIVT none none, varLeaf k]
      = some (.mk DIVT (some (.mk DIVT (some (varLeaf i)) (some (varLeaf j))))
          (some (varLeaf k))) := by
  refine ⟨?_, ?_, ?_, ?_, ?_⟩ <;> rfl

/-- C8 counterexample: the claim states that the input `xy` behaves as
the product of the two variables `x` and `y`.  The lexer groups the
whole alphabetic run into a single symbol, which is not a function name,
so the round interns exactly one variable, named `xy`, and the parse
tree is a single variable leaf rather than a product node. -/
theorem c8_xy_single_variable_counterexample :
    (tokenize ['x', 'y']).1 = [⟨1, 0⟩]
    ∧ (tokenize ['x', 'y']).2 = ["xy"]
    ∧ parseExprTokens (tokenize ['x', 'y']).1 = some (varLeaf 0)
    ∧ (varLeaf 0).tok ≠ MULT := by
  refine ⟨rfl, rfl, rfl, by decide⟩

/-- C8 amended: `2x` and `3sin(x)` behave as products via implicit
multiplication (a digit run followed by an operand inserts a star), but
`xy` lexes as one two-letter variable named `xy` (an alphabetic run is a
single symbol), not as the product of `x` and `y`. -/
theorem c8_implicit_multiplication_amended :
    parseExprTokens (tokenize ['2', 'x']).1
      = some (.mk MULT (some (intLeaf 2)) (some (varLeaf 0)))
    ∧ (tokenize ['2', 'x']).2 = ["x"]
    ∧ parseExprTokens (tokenize ['3', 's', 'i', 'n', '(', 'x', ')']).1
      = some (.mk MULT (some (intLeaf 3)) (some (.mk ⟨2, 3⟩ (some (varLeaf 0)) none)))
    ∧ (tokenize ['3', 's', 'i', 'n', '(', 'x', ')']).2 = ["x"]
    ∧ (tokenize ['x', 'y']).1 = [⟨1, 0⟩]
    ∧ (tokenize ['x', 'y']).2 = ["xy"]
    ∧ parseExprTokens (tokenize ['x', 'y']).1 = some (varLeaf 0) := by
  exact ⟨rfl, rfl, rfl, rfl, rfl, rfl, rfl⟩

/-- C9: for every target variable id `dx`, the partial derivative of an
integer-literal node is the constant 0, and the partial derivative of a
variable node with id `y` is the constant 1 when `y = dx` and the
constant 0 otherwise. -/
theorem c9_partial_leaf_rules (dx c y : Int) :
    partialD (intLeaf c) dx = intLeaf 0
    ∧ partialD (varLeaf y) dx = (if y = dx then intLeaf 1 else intLeaf 0) := by
  refine ⟨?_, ?_⟩
  · simp [partialD, intLeaf]
  · by_cases h : y = dx <;> simp [partialD, varLeaf, h]

/-- Helper: once the divided-by-zero flag is set, later checkpoints of
the same derivation never print. -/
theorem runDerivAux_true_eq (es : List DivEvent) : runDerivAux true es = (true, []) := by
  induction es with
  | nil => rfl
  | cons e es ih =>
    rw [runDerivAux]
    split
    · simp [ih]
    · exact ih

/-- Helper: one derivation prints the divided-by-zero diagnostic exactly
once when any of its checkpoints raises, and nothing otherwise; the
final flag records whether some checkpoint raised. -/
theorem runDeriv_spec (es : List DivEvent) :
    runDeriv es = (es.any eventRaises, if es.any eventRaises then [errLine] else []) := by
  unfold runDeriv
  induction es with
  | nil => rfl
  | cons e es ih =>
    rw [runDerivAux]
    by_cases h : eventRaises e = true
    · simp [h, runDerivAux_true_eq]
    · simp only [Bool.not_eq_true] at h
      simp [h, ih]

/-- C5: in the derivative loop of `main`, a derivation whose computation
detects a divided-by-zero (fraction construction with zero denominator,
or the all-zero GCD check) contributes exactly one
`Runtime Error: Divided by 0` line and its own output line is
suppressed, while every derivation with no such detection contributes
exactly its `name: expression` line; the derivations are processed
independently in map order. -/
theorem c5_div0_reported_once_per_derivation (evs : Nat → List DivEvent)
    (render : Nat → String) (m : List (String × Nat)) :
    roundDerivOut evs render m
      = m.flatMap (fun p =>
          if (evs p.2).any eventRaises then [errLine]
          else [p.1 ++ ": " ++ render p.2]) := by
  induction m with
  | nil => rfl
  | cons p rest ih =>
    obtain ⟨name, id⟩ := p
    by_cases h : (evs id).any eventRaises = true
    · rw [roundDerivOut, List.flatMap_cons, runDeriv_spec, h]
      simp [ih]
    · simp only [Bool.not_eq_true] at h
      rw [roundDerivOut, List.flatMap_cons, runDeriv_spec, h]
      simp [ih]

/-- Helper: characters with the same code point are equal. -/
theorem charEq_of_toNat_eq {a b : Char} (h : a.toNat = b.toNat) : a = b := by
  apply Char.eq_of_val_eq
  apply UInt32.eq_of_toBitVec_eq
  apply BitVec.eq_of_toNat_eq
  exact h

/-- Helper: head/tail characterization of the byte-lexicographic
comparison. -/
theorem strLtB_cons (x y : Char) (xs ys : List Char) :
    strLtB (x :: xs) (y :: ys) = true ↔
      (x.toNat < y.toNat ∨ (x.toNat = y.toNat ∧ strLtB xs ys = true)) := by
  rw [strLtB]
  by_cases h1 : x.toNat < y.toNat
  · simp [h1]
  · by_cases h2 : y.toNat < x.toNat
    · simp [h1, h2]
      omega
    · simp [h1, h2]
      omega

/-- Helper: the byte-lexicographic comparison is transitive. -/
theorem strLtB_trans : ∀ a b c : List Char,
    strLtB a b = true → strLtB b c = true → strLtB a c = true := by
  intro a
  induction a with
  | nil =>
    intro b c hab hbc
    cases b with
    | nil => simp [strLtB] at hab
    | cons y ys =>
      cases c with
      | nil => simp [strLtB] at hbc
      | cons z zs => simp [strLtB]
  | cons x xs ih =>
    intro b c hab hbc
    cases b with
    | nil => simp [strLtB] at hab
    | cons y ys =>
      cases c with
      | nil => simp [strLtB] at hbc
      | cons z zs =>
        rw [strLtB_cons] at hab hbc ⊢
        rcases hab with h1 | ⟨h1, hab2⟩ <;> rcases hbc with h2 | ⟨h2, hbc2⟩
        · left
          omega
        · left
          omega
        · left
          omega
        · right
          exact ⟨by omega, ih ys zs hab2 hbc2⟩

/-- Helper: the byte-lexicographic comparison is total. -/
theorem strLtB_total : ∀ a b : List Char, strLtB a b = true ∨ a = b ∨ strLtB b a = true := by
  intro a
  induction a with
  | nil =>
    intro b
    cases b with
    | nil => exact Or.inr (Or.inl rfl)
    | cons y ys => exact Or.inl (by simp [strLtB])
  | cons x xs ih =>
    intro b
    cases b with
    | nil => exact Or.inr (Or.inr (by simp [strLtB]))
    | cons y ys =>
      rcases Nat.lt_trichotomy x.toNat y.toNat with h | h | h
      · exact Or.inl ((strLtB_cons x y xs ys).mpr (Or.inl h))
      · rcases ih ys with h2 | h2 | h2
        · exact Or.inl ((strLtB_cons x y xs ys).mpr (Or.inr ⟨h, h2⟩))
        · exact Or.inr (Or.inl (by rw [charEq_of_toNat_eq h, h2]))
        · exact Or.inr (Or.inr ((strLtB_cons y x ys xs).mpr (Or.inr ⟨h.symm, h2⟩)))
      · exact Or.inr (Or.inr ((strLtB_cons y x ys xs).mpr (Or.inl h)))

/-- Helper: `strLt` is transitive. -/
theorem strLt_trans {a b c : String} (h1 : strLt a b = true) (h2 : strLt b c = true) :
    strLt a c = true :=
  strLtB_trans a.toList b.toList c.toList h1 h2

/-- Helper: `strLt` is total. -/
theorem strLt_total (a b : String) : strLt a b = true ∨ a = b ∨ strLt b a = true := by
  rcases strLtB_total a.toList b.toList with h | h | h
  · exact Or.inl h
  · refine Or.inr (Or.inl ?_)
    cases a with
    | mk da =>
      cases b with
      | mk db =>
        have hd : da = db := by simpa using h
        rw [hd]
  · exact Or.inr (Or.inr h)

/-- Helper: inserting a fresh key is a permutation-level cons. -/
theorem mapInsert_perm (k : String) (v : Nat) (m : List (String × Nat))
    (h : k ∉ m.map Prod.fst) : (mapInsert k v m).Perm ((k, v) :: m) := by
  induction m with
  | nil => simp [mapInsert]
  | cons p rest ih =>
    simp only [List.map_cons, List.mem_cons] at h
    push_neg at h
    rw [mapInsert]
    by_cases hlt : strLt k p.1 = true
    · rw [if_pos hlt]
    · rw [if_neg hlt, if_neg h.1]
      exact ((ih h.2).cons p).trans (List.Perm.swap (k, v) p rest)

/-- Helper: inserting a fresh key keeps the key list sorted. -/
theorem mapInsert_sorted (k : String) (v : Nat) (m : List (String × Nat))
    (hs : List.Sorted (fun a b => strLt a b = true) (m.map Prod.fst))
    (h : k ∉ m.map Prod.fst) :
    List.Sorted (fun a b => strLt a b = true) ((mapInsert k v m).map Prod.fst) := by
  induction m with
  | nil => simp [mapInsert]
  | cons p rest ih =>
    simp only [List.map_cons, List.mem_cons] at h
    push_neg at h
    rw [List.map_cons, List.sorted_cons] at hs
    obtain ⟨hp, hrest⟩ := hs
    rw [mapInsert]
    by_cases hlt : strLt k p.1 = true
    · rw [if_pos hlt]
      rw [List.map_cons, List.map_cons, List.sorted_cons]
      refine ⟨?_, ?_⟩
      · intro b hb
        rcases List.mem_cons.mp hb with hb1 | hb2
        · rw [hb1]
          exact hlt
        · exact strLt_trans hlt (hp b hb2)
      · rw [List.sorted_cons]
        exact ⟨hp, hrest⟩
    · rw [if_neg hlt, if_neg h.1]
      rw [List.map_cons, List.sorted_cons]
      refine ⟨?_, ih hrest h.2⟩
      intro b hb
      have hperm := (mapInsert_perm k v rest h.2).map Prod.fst
      have hb2 : b ∈ k :: rest.map Prod.fst := by
        have := hperm.mem_iff.mp hb
        simpa using this
      have hpk : strLt p.1 k = true := by
        rcases strLt_total k p.1 with h1 | h1 | h1
        · exact absurd h1 hlt
        · exact absurd h1 h.1
        · exact h1
      rcases List.mem_cons.mp hb2 with hb3 | hb4
      · rw [hb3]
        exact hpk
      · exact hp b hb4

/-- Helper: the map built from a duplicate-free name list contains
exactly the pairs (name, position), up to permutation. -/
theorem buildVarMapAux_perm : ∀ (vars : List String) (i : Nat) (m : List (String × Nat)),
    vars.Nodup → (∀ s ∈ vars, s ∉ m.map Prod.fst) →
    (buildVarMapAux i vars m).Perm
      (m ++ (List.enumFrom i vars).map (fun p => (p.2, p.1))) := by
  intro vars
  induction vars with
  | nil =>
    intro i m _ _
    simp [buildVarMapAux]
  | cons s rest ih =>
    intro i m hnd hdisj
    rw [buildVarMapAux]
    have hs : s ∉ m.map Prod.fst := hdisj s (by simp)
    have hnd2 : rest.Nodup := (List.nodup_cons.mp hnd).2
    have hsne : s ∉ rest := (List.nodup_cons.mp hnd).1
    have hdisj2 : ∀ t ∈ rest, t ∉ (mapInsert s i m).map Prod.fst := by
      intro t ht hmem
      have hperm := (mapInsert_perm s i m hs).map Prod.fst
      have ht2 : t ∈ s :: m.map Prod.fst := by
        have := hperm.mem_iff.mp hmem
        simpa using this
      rcases List.mem_cons.mp ht2 with ht3 | ht4
      · exact hsne (ht3 ▸ ht)
      · exact hdisj t (List.mem_cons_of_mem _ ht) ht4
    have hmain := ih (i + 1) (mapInsert s i m) hnd2 hdisj2
    refine hmain.trans ?_
    have h2 := (mapInsert_perm s i m hs).append_right
      ((List.enumFrom (i + 1) rest).map (fun p => (p.2, p.1)))
    refine h2.trans ?_
    simpa using List.perm_middle.symm

/-- Helper: the key list of the built map is sorted in ascending order. -/
theorem buildVarMapAux_sorted : ∀ (vars : List String) (i : Nat) (m : List (String × Nat)),
    vars.Nodup → List.Sorted (fun a b => strLt a b = true) (m.map Prod.fst) →
    (∀ s ∈ vars, s ∉ m.map Prod.fst) →
    List.Sorted (fun a b => strLt a b = true) ((buildVarMapAux i vars m).map Prod.fst) := by
  intro vars
  induction vars with
  | nil =>
    intro i m _ hs _
    exact hs
  | cons s rest ih =>
    intro i m hnd hs hdisj
    rw [buildVarMapAux]
    have hsn : s ∉ m.map Prod.fst := hdisj s (by simp)
    have hnd2 : rest.Nodup := (List.nodup_cons.mp hnd).2
    have hsne : s ∉ rest := (List.nodup_cons.mp hnd).1
    have hdisj2 : ∀ t ∈ rest, t ∉ (mapInsert s i m).map Prod.fst := by
      intro t ht hmem
      have hperm := (mapInsert_perm s i m hsn).map Prod.fst
      have ht2 : t ∈ s :: m.map Prod.fst := by
        have := hperm.mem_iff.mp hmem
        simpa using this
      rcases List.mem_cons.mp ht2 with ht3 | ht4
      · exact hsne (ht3 ▸ ht)
      · exact hdisj t (List.mem_cons_of_mem _ ht) ht4
    exact ih (i + 1) (mapInsert s i m) hnd2 (mapInsert_sorted s i m hs hsn) hdisj2

/-- Helper: with no divided-by-zero checkpoint in any derivation, the
output loop prints one `name: expression` line per map entry. -/
theorem roundDerivOut_noerr (render : Nat → String) (m : List (String × Nat)) :
    roundDerivOut (fun _ => []) render m
      = m.map (fun p => p.1 ++ ": " ++ render p.2) := by
  induction m with
  | nil => rfl
  | cons p rest ih =>
    obtain ⟨name, id⟩ := p
    rw [roundDerivOut]
    simpa [runDeriv, runDerivAux] using ih

/-- C4 counterexample: the claim states the derivative lines are printed
in first-occurrence order of the variables.  For the input `y+x` the
variable table interns `y` before `x`, but `main` iterates
`std::map<std::string, int> VarMap`, which is ordered by name, so the
`x` line is printed before the `y` line. -/
theorem c4_output_order_counterexample :
    (tokenize ['y', '+', 'x']).2 = ["y", "x"]
    ∧ mainLines (fun _ => []) (fun _ => "0") ["y", "x"] = ["x: 0", "y: 0"]
    ∧ ["x: 0", "y: 0"] ≠ ["y: 0", "x: 0"] := by
  exact ⟨rfl, rfl, by decide⟩

/-- C4 amended: for every successfully parsed line, the derivative
output lines are emitted one per interned variable, each of the form
`name: expression`, in ascending lexicographic order of the variable
name (the iteration order of `std::map VarMap`), not in
first-occurrence order; the map pairs each name with its
first-occurrence id. -/
theorem c4_output_sorted_order (render : Nat → String) (vars : List String)
    (h : vars.Nodup) :
    mainLines (fun _ => []) render vars
      = (buildVarMap vars).map (fun p => p.1 ++ ": " ++ render p.2)
    ∧ (buildVarMap vars).Perm (vars.enum.map (fun p => (p.2, p.1)))
    ∧ List.Sorted (fun a b => strLt a b = true) ((buildVarMap vars).map Prod.fst) := by
  refine ⟨roundDerivOut_noerr render (buildVarMap vars), ?_, ?_⟩
  · have := buildVarMapAux_perm vars 0 [] h (by simp)
    simpa [buildVarMap, List.enum] using this
  · exact buildVarMapAux_sorted vars 0 [] h (by simp) (by simp)

/-- C4 witness: the amended theorem applied to the concrete round with
variables interned in the order `y`, `x`. -/
theorem c4_output_sorted_order_witness :
    mainLines (fun _ => []) (fun _ => "0") ["y", "x"]
      = (buildVarMap ["y", "x"]).map (fun p => p.1 ++ ": " ++ (fun _ : Nat => "0") p.2) :=
  (c4_output_sorted_order (fun _ => "0") ["y", "x"] (by decide)).1

/-- Helper: on input consisting only of ignored characters the scanner
never leaves the `Null` run and emits no token. -/
theorem genTok_null : ∀ (s : List Char), (∀ c ∈ s, judge c = TokCond.nul) →
    ∀ (run : List Char) (vars : List String),
      genTok s TokCond.nul run vars = ([], vars) := by
  intro s
  induction s with
  | nil =>
    intro _ run vars
    rfl
  | cons c cs ih =>
    intro h run vars
    have hc : judge c = TokCond.nul := h c (by simp)
    rw [genTok, hc, if_pos rfl, if_neg (by decide)]
    exact ih (fun d hd => h d (by simp [hd])) (run ++ [c]) vars

/-- C10: a line containing no digits, letters or operator characters
(every character classifies as `Null`, e.g. an empty line or a line of
unrecognized characters) completes the round with no error: no tokens
are produced and no variable is interned, parsing the empty token list
succeeds (no syntax-error diagnostic) yielding the default integer-0
leaf, which passes the argument check; a simplification whose
checkpoints detect no divided-by-zero prints no diagnostic and leaves
the flag clear; and the derivative loop over the empty variable table
prints no lines. -/
theorem c10_blank_line_round (s : List Char) (evs0 : List DivEvent)
    (hnull : ∀ c ∈ s, judge c = TokCond.nul)
    (hquiet : evs0.any eventRaises = false) :
    tokenize s = ([], [])
    ∧ parseExprTokens [] = some (ExprN.mk ⟨0, 0⟩ none none)
    ∧ checkArgE (ExprN.mk ⟨0, 0⟩ none none) = true
    ∧ (runDeriv evs0).2 = []
    ∧ (runDeriv evs0).1 = false
    ∧ mainLines (fun _ => []) (fun _ => "") [] = [] := by
  refine ⟨genTok_null s hnull [] [], rfl, rfl, ?_, ?_, rfl⟩
  · rw [runDeriv_spec]
    simp [hquiet]
  · rw [runDeriv_spec]
    simp [hquiet]

/-- C10 witness: the theorem applied to the concrete line of a space and
an at-sign, with no divided-by-zero checkpoint. -/
theorem c10_blank_line_round_witness :
    tokenize [' ', '@'] = ([], [])
    ∧ parseExprTokens [] = some (ExprN.mk ⟨0, 0⟩ none none) :=
  ⟨(c10_blank_line_round [' ', '@'] [] (by decide) (by decide)).1,
    (c10_blank_line_round [' ', '@'] [] (by decide) (by decide)).2.1⟩
